import Mathlib

set_option maxRecDepth 10000

/-!
Verification model of a bounded same-domain "happy hour" crawler
(`scraper_simple.py`).  Python strings are embedded as lists of characters,
the network and the HTML/PDF parsers are external collaborators embedded as
functions supplied through an environment record, and the crawl loop is
embedded as an explicit step function on a crawl state.
-/

/-- Character-list representation of the Python strings used throughout the model. -/
abbrev Chars := List Char

/-- Lower-casing of a string, modelling `str.lower()` on the ASCII letters that
appear in the URLs and keywords handled by the program. -/
def lowerChars (s : Chars) : Chars := s.map Char.toLower

/-- Occurrence of `p` as a contiguous substring, modelling Python's `in` test on strings. -/
def occursIn (p : Chars) : Chars → Bool
  | [] => p.isPrefixOf ([] : Chars)
  | c :: t => p.isPrefixOf (c :: t) || occursIn p t

/-- Splits a list at the first occurrence of the pattern `p`, returning the part
before the occurrence and the part after it. -/
def splitFirst (p : Chars) : Chars → Option (Chars × Chars)
  | [] => if p.isPrefixOf ([] : Chars) then some ([], []) else none
  | c :: t =>
    if p.isPrefixOf (c :: t) then some ([], (c :: t).drop p.length)
    else (splitFirst p t).map (fun q => (c :: q.1, q.2))

/-- Characters that terminate the authority component of a URL. -/
def hostEnd (c : Char) : Bool := c == '/' || c == '?' || c == '#'

/-- Network authority of an absolute URL: `urlparse(u).netloc` for the
`scheme://host...` URL shapes the crawler works with. -/
def netloc (u : Chars) : Chars :=
  match splitFirst "://".data u with
  | none => []
  | some q => q.2.takeWhile (fun c => !hostEnd c)

/-- Path component of a URL: `urlparse(u).path` for the URL shapes the crawler
works with (everything after the authority and before any query or fragment). -/
def url_path (u : Chars) : Chars :=
  match splitFirst "://".data u with
  | none => u.takeWhile (fun c => c != '?' && c != '#')
  | some q => (q.2.dropWhile (fun c => !hostEnd c)).takeWhile (fun c => c != '?' && c != '#')

/-- Resolution of an href against a base URL, modelling `urljoin` on the forms
the crawler exercises: an href carrying a scheme is returned unchanged, a
root-relative href replaces the base path, and any other href is appended to
the base directory.  Dot segments are not normalized. -/
def urljoin (base ref : Chars) : Chars :=
  if occursIn "://".data ref then ref
  else
    match splitFirst "://".data base with
    | none => ref
    | some q =>
      if ref.head? = some '/' then q.1 ++ "://".data ++ q.2.takeWhile (fun c => !hostEnd c) ++ ref
      else (base.reverse.dropWhile (fun c => c != '/')).reverse ++ ref

/-- Keyword weight table of `score_url`, in the source's insertion order. -/
def keywords : List (Chars × Nat) :=
  [("happy".data, 5), ("hour".data, 5), ("special".data, 3), ("deal".data, 3),
   ("menu".data, 2), ("drink".data, 2), ("food".data, 1)]

/-- `score_url` from the source: the weights of all keywords occurring as
substrings of the lower-cased URL are accumulated, and 4 is added when the
lower-cased URL ends with ".pdf". -/
def score_url (url : Chars) : Nat :=
  let lower := lowerChars url
  let s := keywords.foldl (fun acc kv => if occursIn kv.1 lower then acc + kv.2 else acc) 0
  if ".pdf".data.isSuffixOf lower then s + 4 else s

/-- Comparison used to rank candidate links: descending URL score.  Sorting a
list with this relation models Python's stable `sorted(key=score_url, reverse=True)`. -/
def scoreGe (a b : Chars) : Prop := score_url b ≤ score_url a

instance : DecidableRel scoreGe :=
  fun a b => inferInstanceAs (Decidable (score_url b ≤ score_url a))

instance : IsTotal Chars scoreGe := ⟨fun a b => Nat.le_total (score_url b) (score_url a)⟩

instance : IsTrans Chars scoreGe := ⟨fun _ _ _ h1 h2 => Nat.le_trans h2 h1⟩

/-- Same-domain candidate collection of `find_related_pages`: each href is
resolved against the base URL and kept, in discovery order, exactly when its
authority equals the base URL's authority. -/
def rel_candidates (base : Chars) (hrefs : List Chars) : List Chars :=
  List.foldl
    (fun acc href =>
      if netloc (urljoin base href) = netloc base then acc ++ [urljoin base href] else acc)
    [] hrefs

/-- `find_related_pages` from the source.  The source sorts `set(candidates)`;
a Python set iterates in hash-table order, not discovery order, so that
enumeration is a parameter `sord` (any enumeration of the distinct candidates).
The enumeration is stably sorted by descending score, links with positive score
are kept, and the first three are returned. -/
def find_related_pages (sord : List Chars → List Chars) (base : Chars) (hrefs : List Chars) :
    List Chars :=
  ((List.insertionSort scoreGe (sord (rel_candidates base hrefs))).filter
    (fun u => decide (0 < score_url u))).take 3

/-- Distinct elements of a list in first-occurrence order; used only to state
the spec's reading of the entry-page expansion. -/
def dedupKeepFirst (l : List Chars) : List Chars :=
  List.foldl (fun acc x => if x ∈ acc then acc else acc ++ [x]) [] l

/-- Follows the spec's words for entry-page expansion: the distinct same-domain
candidates in discovery order, stably sorted by descending score, positive
scores kept, truncated to the top three, so that ties are broken by discovery
order on the page. -/
def spec_related (base : Chars) (hrefs : List Chars) : List Chars :=
  ((List.insertionSort scoreGe (dedupKeepFirst (rel_candidates base hrefs))).filter
    (fun u => decide (0 < score_url u))).take 3

/-- Follows the claim's words for scoring: the keyword weights are summed over
the fixed table, and the flat bonus of 4 applies exactly when the URL's path
ends with ".pdf" case-insensitively. -/
def spec_score_url (url : Chars) : Nat :=
  (keywords.map (fun kv => if occursIn kv.1 (lowerChars url) then kv.2 else 0)).sum
    + (if ".pdf".data.isSuffixOf (lowerChars (url_path url)) then 4 else 0)

/-- Text and document-order href list yielded by fetching and parsing one HTML
page (`requests.get` followed by `extract_text_from_html`). -/
structure HtmlPage where
  text : Chars
  hrefs : List Chars

/-- External collaborators of the crawl. `fetch_html u` is `none` when the
fetch or parse of `u` raises (connection error, bad status, parse failure);
`pdf_text` is `extract_text_from_pdf_url`, which is total and returns the
empty string when the download or the PDF extraction fails or the extraction
capability is absent; `set_iter` is the interpreter's iteration order on
`set(candidates)`, an enumeration of the distinct elements of its argument
that Python does not promise to relate to insertion order. -/
structure CrawlEnv where
  fetch_html : Chars → Option HtmlPage
  pdf_text : Chars → Chars
  set_iter : List Chars → List Chars

/-- State of `scrape_with_crawl`'s loop: the visited set (as a duplicate-free
list), the frontier queue `urls_to_visit`, and the collected snippets. -/
structure CrawlState where
  visited : List Chars
  queue : List Chars
  snippets : List (Chars × Chars)
deriving DecidableEq

/-- Page budget of the crawl (`max_pages`). -/
def max_pages : Nat := 6

/-- Initial crawl state: empty visited set, the entry URL queued, no snippets. -/
def init_state (base : Chars) : CrawlState := ⟨[], [base], []⟩

/-- One iteration of the crawl loop of `scrape_with_crawl`.  A state whose
queue is empty or whose visited set has reached the budget is left unchanged
(the loop has exited).  Otherwise the front URL is popped; an already-visited
URL is skipped, a URL whose lower-cased text ends in ".pdf" takes the PDF
branch (snippet only when the extracted text is non-empty, no link discovery),
a failed fetch is silently absorbed, and a fetched page contributes its snippet
plus link expansion: top-3 scored expansion on the entry page, and unscored
append of every positively scored same-domain link on later pages, each append
guarded by membership tests against the visited set and the queue. -/
def crawl_step (env : CrawlEnv) (base : Chars) (st : CrawlState) : CrawlState :=
  match st.queue with
  | [] => st
  | u :: rest =>
    if max_pages ≤ st.visited.length then st
    else if u ∈ st.visited then { st with queue := rest }
    else if ".pdf".data.isSuffixOf (lowerChars u) then
      { visited := u :: st.visited, queue := rest,
        snippets :=
          if env.pdf_text u = [] then st.snippets else st.snippets ++ [(u, env.pdf_text u)] }
    else
      match env.fetch_html u with
      | none => { visited := u :: st.visited, queue := rest, snippets := st.snippets }
      | some page =>
        if u = base then
          { visited := u :: st.visited,
            queue :=
              List.foldl
                (fun q r => if r ∉ u :: st.visited ∧ r ∉ q then q ++ [r] else q)
                rest (find_related_pages env.set_iter base page.hrefs),
            snippets := st.snippets ++ [(u, page.text)] }
        else
          { visited := u :: st.visited,
            queue :=
              List.foldl
                (fun q href =>
                  if netloc (urljoin u href) = netloc base ∧ urljoin u href ∉ u :: st.visited ∧
                      0 < score_url (urljoin u href) ∧ urljoin u href ∉ q then
                    q ++ [urljoin u href]
                  else q)
                rest page.hrefs,
            snippets := st.snippets ++ [(u, page.text)] }

/-- Crawl state after `k` loop iterations from the initial state. -/
def crawl_steps (env : CrawlEnv) (base : Chars) : Nat → CrawlState
  | 0 => init_state base
  | k + 1 => crawl_step env base (crawl_steps env base k)

/-- `scrape_with_crawl` from the source: the snippet list collected by the
loop.  `fuel` bounds the number of iterations modelled; exited loops are fixed
points of `crawl_step`, so any sufficiently large `fuel` yields the Python
result. -/
def scrape_with_crawl (env : CrawlEnv) (base : Chars) (fuel : Nat) : List (Chars × Chars) :=
  (crawl_steps env base fuel).snippets

/-- Backtracking matcher: the lengths this pattern fragment can consume from
the front of the text, in the regex engine's preference order. -/
abbrev Matcher := Chars → List Nat

/-- Literal pattern fragment. -/
def litM (p : Chars) : Matcher := fun s => if p.isPrefixOf s then [p.length] else []

/-- Alternation, left alternative preferred. -/
def altM (a b : Matcher) : Matcher := fun s => a s ++ b s

/-- Sequencing with full backtracking. -/
def seqM (a b : Matcher) : Matcher :=
  fun s => (a s).flatMap (fun n => (b (s.drop n)).map (fun m => n + m))

/-- Greedy optional fragment. -/
def optM (a : Matcher) : Matcher := fun s => a s ++ [0]

/-- Length of the maximal front run of characters satisfying `p`. -/
def countWhile (p : Char → Bool) : Chars → Nat
  | [] => 0
  | c :: t => if p c then countWhile p t + 1 else 0

/-- The list `[k, k-1, ..., 0]`. -/
def descSteps (k : Nat) : List Nat := (List.range (k + 1)).reverse

/-- Greedy star over a character class, longest run first. -/
def starM (p : Char → Bool) : Matcher := fun s => descSteps (countWhile p s)

/-- Greedy plus over a character class, longest run first, at least one character. -/
def plusM (p : Char → Bool) : Matcher := fun s => (descSteps (countWhile p s)).dropLast

/-- Characters matched by the regex class `\s` on the program's inputs. -/
def pySpace (c : Char) : Bool :=
  c == ' ' || c == '\t' || c == '\n' || c == '\r' || c == '\x0b' || c == '\x0c'

/-- The fragment `\d{1,2}`, greedy. -/
def digits12 : Matcher := fun s =>
  match s with
  | a :: b :: _ => if a.isDigit then (if b.isDigit then [2, 1] else [1]) else []
  | [a] => if a.isDigit then [1] else []
  | [] => []

/-- The fragment `(?::\d{2})?`, greedy. -/
def colonMM : Matcher := fun s =>
  match s with
  | a :: b :: c :: _ => if a == ':' && b.isDigit && c.isDigit then [3, 0] else [0]
  | _ => [0]

/-- The fragment `(am|pm)?`, greedy, on lower-cased text. -/
def ampmOpt : Matcher := optM (altM (litM "am".data) (litM "pm".data))

/-- Membership in the character class `[-–to]`. -/
def sepClassChar (c : Char) : Bool := c == '-' || c == '–' || c == 't' || c == 'o'

/-- The separator fragment the source actually uses: the class repetition `[-–to]+`. -/
def sepCode : Matcher := plusM sepClassChar

/-- Follows the claim's words for the separator: exactly a hyphen, an en-dash,
or the word "to". -/
def sepSpec : Matcher := altM (litM "-".data) (altM (litM "–".data) (litM "to".data))

/-- The time-range fragment
`\d{1,2}(?::\d{2})?\s*(am|pm)?\s*<sep>\s*\d{1,2}(?::\d{2})?\s*(am|pm)?`,
parameterized by the separator fragment. -/
def timeRangeWith (sep : Matcher) : Matcher :=
  seqM digits12 (seqM colonMM (seqM (starM pySpace) (seqM ampmOpt (seqM (starM pySpace)
    (seqM sep (seqM (starM pySpace) (seqM digits12 (seqM colonMM
      (seqM (starM pySpace) ampmOpt)))))))))

/-- The indicator fragment `(happy hour|hh)` on lower-cased text. -/
def indicatorM : Matcher := altM (litM "happy hour".data) (litM "hh".data)

/-- Length of the match of `<indicator>.*?<timerange>` anchored at the front of
`s`, with the lazy gap preferring shorter spans (`re.DOTALL` lets it cross line
breaks), or `none` when no match starts here. -/
def matchAtWith (sep : Matcher) (s : Chars) : Option Nat :=
  (indicatorM s).findSome? (fun n =>
    ((List.range ((s.drop n).length + 1)).findSome? (fun gap =>
      match timeRangeWith sep ((s.drop n).drop gap) with
      | [] => none
      | m :: _ => some (gap + m))).map (fun r => n + r))

/-- Scan of `finditer`: successive non-overlapping matches, each search resuming
at the end of the previous match.  The fuel is the scan position budget; every
step advances the position, so `s.length + 1` steps always suffice. -/
def findSpansAux (sep : Matcher) (s : Chars) : Nat → Nat → List (Nat × Nat)
  | _, 0 => []
  | i, fuel + 1 =>
    if s.length ≤ i then []
    else
      match matchAtWith sep (s.drop i) with
      | some n => (i, n) :: findSpansAux sep s (i + n) fuel
      | none => findSpansAux sep s (i + 1) fuel

/-- All `(start, length)` match spans of the happy-hour pattern in `s`. -/
def hh_spans_with (sep : Matcher) (s : Chars) : List (Nat × Nat) :=
  findSpansAux sep s 0 (s.length + 1)

/-- The matched excerpts `m.group(0)` of `HAPPY_HOUR_REGEX.finditer(txt)`:
matching is done on the lower-cased text (`re.IGNORECASE`), the excerpt is cut
from the original text. -/
def hh_matches (txt : Chars) : List Chars :=
  (hh_spans_with sepCode (lowerChars txt)).map (fun pr => (txt.drop pr.1).take pr.2)

/-- Follows the claim's words for the pattern: identical to `hh_matches` except
that the separator is exactly a hyphen, an en-dash, or the word "to". -/
def spec_hh_matches (txt : Chars) : List Chars :=
  (hh_spans_with sepSpec (lowerChars txt)).map (fun pr => (txt.drop pr.1).take pr.2)

/-- The candidate list built from the regex matches: one candidate per match,
in snippet order then match order, carrying the full matched span. -/
def primary_candidates (snips : List (Chars × Chars)) : List (Chars × Chars) :=
  snips.flatMap (fun p => (hh_matches p.2).map (fun t => (p.1, t)))

/-- Candidate selection from the source: the regex candidates, or, when there
are none at all, one fallback candidate per snippet holding its first 2000
characters. -/
def select_candidates (snips : List (Chars × Chars)) : List (Chars × Chars) :=
  if primary_candidates snips = [] then snips.map (fun p => (p.1, p.2.take 2000))
  else primary_candidates snips

/-- The candidates actually used downstream: the first 8 in production order. -/
def payload_candidates (snips : List (Chars × Chars)) : List (Chars × Chars) :=
  (select_candidates snips).take 8

/-! ### Helper lemmas -/

/-- A guarded accumulating fold over a work list preserves any predicate that
the seed queue satisfies and that every appended element satisfies. -/
theorem fold_enq_forall {β : Type} (C : β → List Chars → Prop) [inst : ∀ b q, Decidable (C b q)]
    (g : β → Chars) (P : Chars → Prop) :
    ∀ (l : List β) (q0 : List Chars),
      (∀ b ∈ l, ∀ q, C b q → P (g b)) → (∀ x ∈ q0, P x) →
      ∀ x ∈ List.foldl (fun q b => if C b q then q ++ [g b] else q) q0 l, P x := by
  intro l
  induction l with
  | nil => intro q0 _ h0 x hx; exact h0 x hx
  | cons b t ih =>
    intro q0 hl h0 x hx
    simp only [List.foldl_cons] at hx
    refine ih _ (fun c hc => hl c (List.mem_cons_of_mem _ hc)) ?_ x hx
    intro y hy
    by_cases hc : C b q0
    · rw [if_pos hc] at hy
      rcases List.mem_append.1 hy with h | h
      · exact h0 y h
      · rcases List.mem_singleton.1 h with rfl
        exact hl b (List.mem_cons_self _ _) q0 hc
    · rw [if_neg hc] at hy
      exact h0 y hy

/-- A guarded accumulating fold whose guard refuses elements already present
preserves freedom from duplicates. -/
theorem fold_enq_nodup {β : Type} (C : β → List Chars → Prop) [inst : ∀ b q, Decidable (C b q)]
    (g : β → Chars) (hC : ∀ b q, C b q → g b ∉ q) :
    ∀ (l : List β) (q0 : List Chars), q0.Nodup →
      (List.foldl (fun q b => if C b q then q ++ [g b] else q) q0 l).Nodup := by
  intro l
  induction l with
  | nil => intro q0 h0; exact h0
  | cons b t ih =>
    intro q0 h0
    simp only [List.foldl_cons]
    refine ih _ ?_
    by_cases hc : C b q0
    · rw [if_pos hc]
      exact List.nodup_append.2 ⟨h0, List.nodup_singleton _,
        fun a ha hb => hC b q0 hc ((List.mem_singleton.1 hb) ▸ ha)⟩
    · rw [if_neg hc]; exact h0

/-- Every collected same-domain candidate has the base URL's authority. -/
theorem netloc_of_mem_rel_candidates (base : Chars) (hrefs : List Chars) :
    ∀ x ∈ rel_candidates base hrefs, netloc x = netloc base := by
  intro x hx
  exact fold_enq_forall (fun href _ => netloc (urljoin base href) = netloc base)
    (fun href => urljoin base href) (fun y => netloc y = netloc base) hrefs []
    (fun b _ q hq => hq) (fun y hy => absurd hy (List.not_mem_nil y)) x hx

/-- Every link returned by `find_related_pages` has the base URL's authority,
provided the set enumeration only returns collected candidates. -/
theorem netloc_of_mem_find_related (sord : List Chars → List Chars) (base : Chars)
    (hrefs : List Chars)
    (hOrd : ∀ x ∈ sord (rel_candidates base hrefs), x ∈ rel_candidates base hrefs) :
    ∀ x ∈ find_related_pages sord base hrefs, netloc x = netloc base := by
  intro x hx
  have h1 : x ∈ (List.insertionSort scoreGe (sord (rel_candidates base hrefs))).filter
      (fun u => decide (0 < score_url u)) := List.mem_of_mem_take hx
  have h2 : x ∈ List.insertionSort scoreGe (sord (rel_candidates base hrefs)) :=
    (List.mem_filter.1 h1).1
  exact netloc_of_mem_rel_candidates base hrefs x
    (hOrd x ((List.mem_insertionSort scoreGe).1 h2))

/-- Every link returned by `find_related_pages` has a positive score. -/
theorem pos_score_of_mem_find_related (sord : List Chars → List Chars) (base : Chars)
    (hrefs : List Chars) :
    ∀ x ∈ find_related_pages sord base hrefs, 0 < score_url x := by
  intro x hx
  have h1 : x ∈ (List.insertionSort scoreGe (sord (rel_candidates base hrefs))).filter
      (fun u => decide (0 < score_url u)) := List.mem_of_mem_take hx
  have h2 := (List.mem_filter.1 h1).2
  exact of_decide_eq_true h2

/-- Loop invariant of the crawl: the visited list is duplicate-free and within
the page budget, and the queue is duplicate-free and disjoint from the visited
set. -/
def CrawlInv (st : CrawlState) : Prop :=
  st.visited.Nodup ∧ st.queue.Nodup ∧ (∀ x ∈ st.queue, x ∉ st.visited) ∧
    st.visited.length ≤ max_pages

/-- One crawl iteration preserves the loop invariant. -/
theorem crawl_step_inv (env : CrawlEnv) (base : Chars) (st : CrawlState) (h : CrawlInv st) :
    CrawlInv (crawl_step env base st) := by
  obtain ⟨vis, que, sn⟩ := st
  obtain ⟨hv, hq, hd, hlen⟩ := h
  cases que with
  | nil => exact ⟨hv, hq, hd, hlen⟩
  | cons u rest =>
    simp only [crawl_step]
    by_cases hbud : max_pages ≤ vis.length
    · rw [if_pos hbud]; exact ⟨hv, hq, hd, hlen⟩
    rw [if_neg hbud]
    have hrest_nd : rest.Nodup := (List.nodup_cons.1 hq).2
    have hu_rest : u ∉ rest := (List.nodup_cons.1 hq).1
    by_cases hvis : u ∈ vis
    · rw [if_pos hvis]
      exact ⟨hv, hrest_nd, fun x hx => hd x (List.mem_cons_of_mem _ hx), hlen⟩
    rw [if_neg hvis]
    have hvis' : (u :: vis).Nodup := List.nodup_cons.2 ⟨hvis, hv⟩
    have hlen' : (u :: vis).length ≤ max_pages := by
      simp only [List.length_cons]
      omega
    have hd' : ∀ x ∈ rest, x ∉ u :: vis := by
      intro x hx
      simp only [List.mem_cons, not_or]
      exact ⟨fun he => hu_rest (he ▸ hx), hd x (List.mem_cons_of_mem _ hx)⟩
    by_cases hpdf : ".pdf".data.isSuffixOf (lowerChars u) = true
    · rw [if_pos hpdf]
      exact ⟨hvis', hrest_nd, hd', hlen'⟩
    rw [if_neg hpdf]
    cases hfetch : env.fetch_html u with
    | none => exact ⟨hvis', hrest_nd, hd', hlen'⟩
    | some page =>
      dsimp only
      by_cases hbase : u = base
      · rw [if_pos hbase]
        refine ⟨hvis', ?_, ?_, hlen'⟩
        · exact fold_enq_nodup (fun r q => r ∉ u :: vis ∧ r ∉ q) (fun r => r)
            (fun b q hc => hc.2) _ rest hrest_nd
        · exact fold_enq_forall (fun r q => r ∉ u :: vis ∧ r ∉ q) (fun r => r)
            (fun x => x ∉ u :: vis) _ rest (fun b _ q hc => hc.1) hd'
      · rw [if_neg hbase]
        refine ⟨hvis', ?_, ?_, hlen'⟩
        · exact fold_enq_nodup
            (fun href q => netloc (urljoin u href) = netloc base ∧ urljoin u href ∉ u :: vis ∧
              0 < score_url (urljoin u href) ∧ urljoin u href ∉ q)
            (fun href => urljoin u href) (fun b q hc => hc.2.2.2) _ rest hrest_nd
        · exact fold_enq_forall
            (fun href q => netloc (urljoin u href) = netloc base ∧ urljoin u href ∉ u :: vis ∧
              0 < score_url (urljoin u href) ∧ urljoin u href ∉ q)
            (fun href => urljoin u href) (fun x => x ∉ u :: vis) _ rest
            (fun b _ q hc => hc.2.1) hd'

/-- The loop invariant holds at every iteration count. -/
theorem crawl_steps_inv (env : CrawlEnv) (base : Chars) :
    ∀ k, CrawlInv (crawl_steps env base k)
  | 0 => ⟨List.nodup_nil, List.nodup_singleton base,
      fun x _ => List.not_mem_nil x, by simp [crawl_steps, init_state, max_pages]⟩
  | k + 1 => crawl_step_inv env base _ (crawl_steps_inv env base k)

/-- Domain invariant of the crawl: every URL in the visited set or the queue
is the entry URL or shares its network authority. -/
def DomInv (base : Chars) (st : CrawlState) : Prop :=
  ∀ x, x ∈ st.visited ∨ x ∈ st.queue → x = base ∨ netloc x = netloc base

/-- One crawl iteration preserves the domain invariant, provided the set
enumeration only returns elements of its argument. -/
theorem crawl_step_dom (env : CrawlEnv) (base : Chars) (st : CrawlState)
    (hOrd : ∀ l, ∀ x ∈ env.set_iter l, x ∈ l) (h : DomInv base st) :
    DomInv base (crawl_step env base st) := by
  obtain ⟨vis, que, sn⟩ := st
  cases que with
  | nil => exact h
  | cons u rest =>
    simp only [crawl_step]
    by_cases hbud : max_pages ≤ vis.length
    · rw [if_pos hbud]; exact h
    rw [if_neg hbud]
    have hvisq : ∀ x, x ∈ vis ∨ x ∈ u :: rest → x = base ∨ netloc x = netloc base := h
    have hmove : ∀ x, x ∈ u :: vis ∨ x ∈ rest → x = base ∨ netloc x = netloc base := by
      intro x hx
      rcases hx with hx | hx
      · rcases List.mem_cons.1 hx with rfl | hx
        · exact hvisq x (Or.inr (List.mem_cons_self _ _))
        · exact hvisq x (Or.inl hx)
      · exact hvisq x (Or.inr (List.mem_cons_of_mem _ hx))
    by_cases hvis : u ∈ vis
    · rw [if_pos hvis]
      intro x hx
      rcases hx with hx | hx
      · exact hvisq x (Or.inl hx)
      · exact hvisq x (Or.inr (List.mem_cons_of_mem _ hx))
    rw [if_neg hvis]
    by_cases hpdf : ".pdf".data.isSuffixOf (lowerChars u) = true
    · rw [if_pos hpdf]; exact hmove
    rw [if_neg hpdf]
    cases env.fetch_html u with
    | none => exact hmove
    | some page =>
      dsimp only
      by_cases hbase : u = base
      · rw [if_pos hbase]
        intro x hx
        rcases hx with hx | hx
        · exact hmove x (Or.inl hx)
        · refine fold_enq_forall (fun r q => r ∉ u :: vis ∧ r ∉ q) (fun r => r)
            (fun y => y = base ∨ netloc y = netloc base) _ rest
            (fun b hb q _ => Or.inr
              (netloc_of_mem_find_related env.set_iter base page.hrefs (hOrd _) b hb))
            (fun y hy => hmove y (Or.inr hy)) x hx
      · rw [if_neg hbase]
        intro x hx
        rcases hx with hx | hx
        · exact hmove x (Or.inl hx)
        · exact fold_enq_forall
            (fun href q => netloc (urljoin u href) = netloc base ∧ urljoin u href ∉ u :: vis ∧
              0 < score_url (urljoin u href) ∧ urljoin u href ∉ q)
            (fun href => urljoin u href) (fun y => y = base ∨ netloc y = netloc base) _ rest
            (fun b _ q hc => Or.inr hc.1) (fun y hy => hmove y (Or.inr hy)) x hx

/-- Accumulating a guarded sum by a fold equals adding the guarded-map sum. -/
theorem foldl_add_if {α : Type} (p : α → Bool) (w : α → Nat) :
    ∀ (l : List α) (n : Nat),
      List.foldl (fun acc kv => if p kv then acc + w kv else acc) n l =
        n + (l.map (fun kv => if p kv then w kv else 0)).sum := by
  intro l
  induction l with
  | nil => intro n; simp
  | cons a t ih =>
    intro n
    simp only [List.foldl_cons, List.map_cons, List.sum_cons]
    by_cases hp : p a = true
    · rw [if_pos hp, if_pos hp, ih]; omega
    · rw [if_neg hp, if_neg hp, ih]; omega

/-! ### Concrete fixtures used by witnesses and counterexamples -/

/-- Entry URL of a small demonstration site. -/
def tieBase : Chars := "https://d/".data

/-- Hrefs of the demonstration entry page: two same-domain links with equal
positive scores, listed in discovery order. -/
def tieHrefs : List Chars := ["https://d/happy1".data, "https://d/happy2".data]

/-- Fetch collaborator of the demonstration site. -/
def demoFetch : Chars → Option HtmlPage := fun u =>
  if u = tieBase then some ⟨"home".data, tieHrefs⟩
  else if u = "https://d/happy1".data then some ⟨"p1".data, []⟩
  else if u = "https://d/happy2".data then some ⟨"p2".data, []⟩
  else none

/-- Demonstration environment whose set enumeration preserves list order. -/
def demoEnvId : CrawlEnv := ⟨demoFetch, fun _ => [], fun l => l⟩

/-- The same demonstration site with the opposite set enumeration order:
both orders are legitimate iteration orders of the same Python set. -/
def demoEnvRev : CrawlEnv := ⟨demoFetch, fun _ => [], fun l => l.reverse⟩

/-- A URL whose path ends in ".pdf" but which, as a whole string, does not. -/
def c6url : Chars := "https://a/m.pdf?x=1".data

/-- Fetch collaborator for the PDF-path counterexample site. -/
def c6Fetch : Chars → Option HtmlPage := fun u =>
  if u = c6url then some ⟨"HTMLTEXT".data, ["https://a/happy".data]⟩
  else if u = "https://a/happy".data then some ⟨"T2".data, []⟩
  else none

/-- Environment for the PDF-path counterexample: the PDF collaborator would
return non-empty text for every URL. -/
def c6Env : CrawlEnv := ⟨c6Fetch, fun _ => "PDFTEXT".data, fun l => l⟩

/-- A URL that ends in ".pdf" as a whole string. -/
def pdfUrl : Chars := "https://a/menu.pdf".data

/-- Environment in which every HTML fetch fails and the PDF collaborator
returns text only for `pdfUrl`. -/
def pdfEnv : CrawlEnv :=
  ⟨fun _ => none, fun u => if u = pdfUrl then "Happy Hour 4-7pm".data else [], fun l => l⟩

/-- Environment in which every fetch fails. -/
def failEnv : CrawlEnv := ⟨fun _ => none, fun _ => [], fun l => l⟩

/-! ### Claims -/

/-- C1: at every point of every crawl, the visited set holds at most
`max_pages = 6` distinct URLs (no URL is marked visited twice), and no URL of
the visited set is in the frontier queue, so a visited URL is never re-queued. -/
theorem crawl_visited_bounded (env : CrawlEnv) (base : Chars) (k : Nat) :
    (crawl_steps env base k).visited.Nodup ∧
    (crawl_steps env base k).visited.length ≤ max_pages ∧
    ∀ x ∈ (crawl_steps env base k).queue, x ∉ (crawl_steps env base k).visited := by
  obtain ⟨h1, _, h3, h4⟩ := crawl_steps_inv env base k
  exact ⟨h1, h4, h3⟩

/-- C10: at every point of every crawl the frontier queue holds no duplicate
URLs and is disjoint from the visited set; consequently the front of the queue
is never already visited, so the pop-time skip branch is never taken. -/
theorem crawl_queue_nodup_disjoint (env : CrawlEnv) (base : Chars) (k : Nat) :
    (crawl_steps env base k).queue.Nodup ∧
    (∀ x ∈ (crawl_steps env base k).queue, x ∉ (crawl_steps env base k).visited) ∧
    ∀ u rest, (crawl_steps env base k).queue = u :: rest →
      u ∉ (crawl_steps env base k).visited := by
  obtain ⟨_, h2, h3, _⟩ := crawl_steps_inv env base k
  exact ⟨h2, h3, fun u rest he => h3 u (by rw [he]; exact List.mem_cons_self u rest)⟩

/-- C8: during every crawl, every URL that enters the visited set or the
frontier queue, other than the entry URL itself, has the entry URL's network
authority; the hypothesis states the guarantee Python gives for iterating
`set(candidates)`, namely that it enumerates only collected candidates. -/
theorem crawl_same_domain (env : CrawlEnv) (base : Chars)
    (hOrd : ∀ l, ∀ x ∈ env.set_iter l, x ∈ l) (k : Nat) :
    ∀ x, x ∈ (crawl_steps env base k).visited ∨ x ∈ (crawl_steps env base k).queue →
      x = base ∨ netloc x = netloc base := by
  induction k with
  | zero =>
    intro x hx
    rcases hx with hx | hx
    · exact absurd hx (List.not_mem_nil x)
    · exact Or.inl (List.mem_singleton.1 hx)
  | succ k ih => exact crawl_step_dom env base _ hOrd ih

/-- Witness for C8: on the demonstration site, a discovered link is in the
visited set after three iterations and indeed shares the entry authority. -/
theorem crawl_same_domain_witness :
    "https://d/happy1".data ∈ (crawl_steps demoEnvId tieBase 3).visited ∧
    ("https://d/happy1".data = tieBase ∨
      netloc "https://d/happy1".data = netloc tieBase) :=
  ⟨by decide, crawl_same_domain demoEnvId tieBase (fun l x hx => hx) 3
    "https://d/happy1".data (Or.inl (by decide))⟩

/-- C3 (amended): for every URL string, `score_url` equals the sum over the
keyword table of the weight of each keyword occurring as a substring of the
lower-cased URL (each keyword counted once), plus a flat bonus of 4 exactly
when the lower-cased URL as a whole ends with ".pdf" — the source tests the
whole URL string, not its path — and the empty URL scores 0. -/
theorem score_url_keyword_sum :
    (∀ url : Chars, score_url url =
        (keywords.map (fun kv => if occursIn kv.1 (lowerChars url) then kv.2 else 0)).sum +
          (if ".pdf".data.isSuffixOf (lowerChars url) then 4 else 0)) ∧
    score_url [] = 0 := by
  constructor
  · intro url
    simp only [score_url]
    rw [foldl_add_if (fun kv => occursIn kv.1 (lowerChars url)) (fun kv => kv.2) keywords 0]
    by_cases hs : ".pdf".data.isSuffixOf (lowerChars url) = true
    · rw [if_pos hs, if_pos hs]; omega
    · rw [if_neg hs, if_neg hs]; omega
  · decide

/-- Counterexample for C3: the URL "https://a.com/menu.pdf?dl=1" has a path
ending in ".pdf", so the claim's path-based reading awards the bonus and
predicts a score of 6, but the source tests the whole URL string, which ends
in "?dl=1", and scores 2. -/
theorem score_url_path_counterexample :
    url_path "https://a.com/menu.pdf?dl=1".data = "/menu.pdf".data ∧
    score_url "https://a.com/menu.pdf?dl=1".data = 2 ∧
    spec_score_url "https://a.com/menu.pdf?dl=1".data = 6 ∧
    score_url "https://a.com/menu.pdf?dl=1".data ≠
      spec_score_url "https://a.com/menu.pdf?dl=1".data := by decide

/-- C2 (amended): for any set enumeration that returns only collected
candidates, the entry-page expansion returns at most three links, every
returned link has positive score and the entry authority, the returned links
are sorted by descending score, and every positively scored enumerated
candidate is returned unless three links were already taken; ties among
equal-scored links follow the set enumeration order, which Python does not
guarantee to be the discovery order on the page. -/
theorem find_related_pages_spec (sord : List Chars → List Chars) (base : Chars)
    (hrefs : List Chars)
    (hOrd : ∀ x ∈ sord (rel_candidates base hrefs), x ∈ rel_candidates base hrefs) :
    (find_related_pages sord base hrefs).length ≤ 3 ∧
    (∀ u ∈ find_related_pages sord base hrefs, 0 < score_url u ∧ netloc u = netloc base) ∧
    List.Sorted scoreGe (find_related_pages sord base hrefs) ∧
    (∀ u ∈ sord (rel_candidates base hrefs), 0 < score_url u →
      u ∈ find_related_pages sord base hrefs ∨
        (find_related_pages sord base hrefs).length = 3) := by
  refine ⟨?_, ?_, ?_, ?_⟩
  · unfold find_related_pages
    rw [List.length_take]
    exact min_le_left _ _
  · intro u hu
    exact ⟨pos_score_of_mem_find_related sord base hrefs u hu,
      netloc_of_mem_find_related sord base hrefs hOrd u hu⟩
  · unfold find_related_pages
    exact List.Pairwise.sublist
      ((List.take_sublist _ _).trans (List.filter_sublist _))
      (List.sorted_insertionSort scoreGe _)
  · intro u hu hpos
    have huL : u ∈ (List.insertionSort scoreGe (sord (rel_candidates base hrefs))).filter
        (fun v => decide (0 < score_url v)) :=
      List.mem_filter.2 ⟨(List.mem_insertionSort scoreGe).2 hu, decide_eq_true hpos⟩
    by_cases hlen : ((List.insertionSort scoreGe (sord (rel_candidates base hrefs))).filter
        (fun v => decide (0 < score_url v))).length ≤ 3
    · left
      unfold find_related_pages
      rw [List.take_of_length_le hlen]
      exact huL
    · right
      unfold find_related_pages
      rw [List.length_take]
      omega

/-- Witness for C2: a concrete same-domain link with positive score returned
by the identity enumeration satisfies the proved properties. -/
theorem find_related_pages_spec_witness :
    0 < score_url "https://d/happy1".data ∧
    netloc "https://d/happy1".data = netloc tieBase :=
  (find_related_pages_spec (fun l => l) tieBase tieHrefs (fun x hx => hx)).2.1
    "https://d/happy1".data (by decide)

/-- Counterexample for C2: with two equal-scored same-domain links discovered
in the order happy1, happy2, a reversed set enumeration — a legitimate
iteration order of the same set — makes the source return the tie in the
opposite of discovery order, while the spec's reading returns discovery
order. -/
theorem find_related_pages_tie_counterexample :
    find_related_pages (fun l => l.reverse) tieBase tieHrefs =
      ["https://d/happy2".data, "https://d/happy1".data] ∧
    spec_related tieBase tieHrefs =
      ["https://d/happy1".data, "https://d/happy2".data] ∧
    find_related_pages (fun l => l.reverse) tieBase tieHrefs ≠ spec_related tieBase tieHrefs ∧
    (rel_candidates tieBase tieHrefs).reverse.Perm (rel_candidates tieBase tieHrefs) ∧
    (rel_candidates tieBase tieHrefs).reverse.Nodup ∧
    score_url "https://d/happy1".data = score_url "https://d/happy2".data := by decide

/-- C4 (amended): the selector scans each snippet case-insensitively for a
happy-hour indicator followed non-greedily by a time range whose separator is
one or more characters from the class of hyphen, en-dash, 't' and 'o' (so a
hyphen, an en-dash, or the word "to" all qualify); every match yields one
candidate whose text is the full matched span, all matches of a snippet are
retained, and "Happy Hour runs 3pm-6pm daily" yields exactly the span through
"6pm", on which the claim's separator reading agrees. -/
theorem hh_matches_examples :
    hh_matches "Happy Hour runs 3pm-6pm daily".data = ["Happy Hour runs 3pm-6pm".data] ∧
    spec_hh_matches "Happy Hour runs 3pm-6pm daily".data =
      ["Happy Hour runs 3pm-6pm".data] ∧
    hh_matches "hh 3-4. happy hour 5-6.".data =
      ["hh 3-4".data, "happy hour 5-6".data] ∧
    primary_candidates [("u".data, "hh 3-4. happy hour 5-6.".data)] =
      [("u".data, "hh 3-4".data), ("u".data, "happy hour 5-6".data)] := by decide

/-- Counterexample for C4: in "happy hour 3t6" the characters between the two
digits are the single letter 't', which is neither a hyphen, an en-dash, nor
the word "to"; the source's class repetition `[-–to]+` accepts it and produces
a candidate, while the claim's separator language matches nothing. -/
theorem hh_matches_separator_counterexample :
    hh_matches "happy hour 3t6".data = ["happy hour 3t6".data] ∧
    spec_hh_matches "happy hour 3t6".data = [] ∧
    hh_matches "happy hour 3t6".data ≠ spec_hh_matches "happy hour 3t6".data := by decide

/-- C5 (amended): the crawl and candidate pipeline is a pure function of the
collaborators: two environments whose fetch, PDF and set-enumeration functions
agree yield identical snippet sequences and identical candidate sequences.
Agreement of the set-enumeration order must be assumed: it is interpreter
state, not content. -/
theorem crawl_deterministic (e1 e2 : CrawlEnv) (base : Chars) (fuel : Nat)
    (hf : e1.fetch_html = e2.fetch_html) (hp : e1.pdf_text = e2.pdf_text)
    (hs : e1.set_iter = e2.set_iter) :
    scrape_with_crawl e1 base fuel = scrape_with_crawl e2 base fuel ∧
    payload_candidates (scrape_with_crawl e1 base fuel) =
      payload_candidates (scrape_with_crawl e2 base fuel) := by
  have he : e1 = e2 := by
    cases e1
    cases e2
    cases hf
    cases hp
    cases hs
    rfl
  subst he
  exact ⟨rfl, rfl⟩

/-- Witness for C5: the determinism theorem applied to the demonstration
environment. -/
theorem crawl_deterministic_witness :
    scrape_with_crawl demoEnvId tieBase 6 = scrape_with_crawl demoEnvId tieBase 6 ∧
    payload_candidates (scrape_with_crawl demoEnvId tieBase 6) =
      payload_candidates (scrape_with_crawl demoEnvId tieBase 6) :=
  crawl_deterministic demoEnvId demoEnvId tieBase 6 rfl rfl rfl

/-- Counterexample for C5: two runs against the same static site — literally
the same fetch and PDF collaborators — but with the two set enumeration orders
of the equal-scored entry links produce different snippet sequences and
different candidate sequences, so identical content alone does not imply
identical output. -/
theorem crawl_set_order_counterexample :
    demoEnvId.fetch_html = demoEnvRev.fetch_html ∧
    demoEnvId.pdf_text = demoEnvRev.pdf_text ∧
    scrape_with_crawl demoEnvId tieBase 6 ≠ scrape_with_crawl demoEnvRev tieBase 6 ∧
    payload_candidates (scrape_with_crawl demoEnvId tieBase 6) ≠
      payload_candidates (scrape_with_crawl demoEnvRev tieBase 6) := by
  refine ⟨rfl, rfl, by decide, by decide⟩

/-- C6 (amended): when the dequeued URL, lower-cased as a whole string, ends
in ".pdf" — the source tests the full URL, not its path — the iteration
appends a snippet holding the PDF collaborator's text exactly when that text
is non-empty, discovers no links from the page, and absorbs extraction
failure (modelled as empty text) without failing the crawl. -/
theorem crawl_step_pdf_branch (env : CrawlEnv) (base : Chars) (st : CrawlState)
    (u : Chars) (rest : List Chars) (hq : st.queue = u :: rest)
    (hbud : st.visited.length < max_pages) (hvis : u ∉ st.visited)
    (hpdf : ".pdf".data.isSuffixOf (lowerChars u) = true) :
    crawl_step env base st =
      { visited := u :: st.visited, queue := rest,
        snippets :=
          if env.pdf_text u = [] then st.snippets
          else st.snippets ++ [(u, env.pdf_text u)] } := by
  obtain ⟨vis, que, sn⟩ := st
  simp only at hq hbud hvis ⊢
  subst hq
  simp only [crawl_step]
  rw [if_neg (by omega : ¬ max_pages ≤ vis.length), if_neg hvis, if_pos hpdf]

/-- Witness for C6: dequeuing a URL ending in ".pdf" with non-empty extracted
text yields exactly the PDF snippet and an empty frontier. -/
theorem crawl_step_pdf_branch_witness :
    crawl_step pdfEnv pdfUrl (init_state pdfUrl) =
      { visited := [pdfUrl], queue := [],
        snippets := [(pdfUrl, "Happy Hour 4-7pm".data)] } := by
  rw [crawl_step_pdf_branch pdfEnv pdfUrl (init_state pdfUrl) pdfUrl [] rfl (by decide)
    (by decide) (by decide)]
  decide

/-- Counterexample for C6: the claim's trigger is the URL's path.  For the
entry URL "https://a/m.pdf?x=1" the path "/m.pdf" ends in ".pdf" and the PDF
collaborator would return non-empty text, yet the source takes the HTML
branch, records the fetched HTML text instead of the PDF text, and scans the
page for links, enqueuing and visiting a second page. -/
theorem pdf_query_url_counterexample :
    ".pdf".data.isSuffixOf (lowerChars (url_path c6url)) = true ∧
    c6Env.pdf_text c6url = "PDFTEXT".data ∧
    scrape_with_crawl c6Env c6url 5 =
      [(c6url, "HTMLTEXT".data), ("https://a/happy".data, "T2".data)] ∧
    (crawl_steps c6Env c6url 1).queue = ["https://a/happy".data] ∧
    scrape_with_crawl c6Env c6url 5 ≠ [(c6url, "PDFTEXT".data)] := by decide

/-- C7: a fetch or parse failure on the dequeued URL abandons only that URL —
the visited set records it, no snippet is appended, no links are enqueued —
and the loop continues with the untouched remaining frontier; the crawl is a
total function, so no subset of broken pages can fail it. -/
theorem crawl_step_fetch_failure (env : CrawlEnv) (base : Chars) (st : CrawlState)
    (u : Chars) (rest : List Chars) (hq : st.queue = u :: rest)
    (hbud : st.visited.length < max_pages) (hvis : u ∉ st.visited)
    (hpdf : ".pdf".data.isSuffixOf (lowerChars u) = false)
    (hfail : env.fetch_html u = none) :
    crawl_step env base st =
      { visited := u :: st.visited, queue := rest, snippets := st.snippets } := by
  obtain ⟨vis, que, sn⟩ := st
  simp only at hq hbud hvis ⊢
  subst hq
  simp only [crawl_step]
  rw [if_neg (by omega : ¬ max_pages ≤ vis.length), if_neg hvis,
    if_neg (by simp [hpdf]), hfail]

/-- Witness for C7: a failing fetch of the entry URL leaves the snippets empty
and the crawl proceeds (here to an empty frontier). -/
theorem crawl_step_fetch_failure_witness :
    crawl_step failEnv "https://a/x".data (init_state "https://a/x".data) =
      { visited := ["https://a/x".data], queue := [], snippets := [] } := by
  rw [crawl_step_fetch_failure failEnv "https://a/x".data (init_state "https://a/x".data)
    "https://a/x".data [] rfl (by decide) (by decide) (by decide) rfl]
  decide

/-- C9: if the primary pattern produces no candidate across all snippets, the
selector emits one candidate per snippet holding the first 2000 characters of
its text (hence of length at most 2000); and in all cases the downstream
payload is an initial segment of the production order of length at most 8. -/
theorem candidates_fallback_cap (snips : List (Chars × Chars)) :
    (primary_candidates snips = [] →
      select_candidates snips = snips.map (fun p => (p.1, p.2.take 2000)) ∧
      ∀ c ∈ select_candidates snips, c.2.length ≤ 2000) ∧
    (payload_candidates snips).length ≤ 8 ∧
    ∃ t, select_candidates snips = payload_candidates snips ++ t := by
  refine ⟨?_, ?_, ?_⟩
  · intro h
    have hsel : select_candidates snips = snips.map (fun p => (p.1, p.2.take 2000)) := by
      unfold select_candidates
      rw [if_pos h]
    refine ⟨hsel, ?_⟩
    intro c hc
    rw [hsel] at hc
    obtain ⟨p, _, hp⟩ := List.mem_map.1 hc
    rw [← hp]
    simp only [List.length_take]
    exact min_le_left _ _
  · unfold payload_candidates
    rw [List.length_take]
    exact min_le_left _ _
  · exact ⟨(select_candidates snips).drop 8, (List.take_append_drop 8 _).symm⟩

/-- Witness for C9: a snippet without any pattern match takes the fallback
path, and the payload is within the cap. -/
theorem candidates_fallback_cap_witness :
    primary_candidates [("u".data, "abc".data)] = [] ∧
    select_candidates [("u".data, "abc".data)] =
      [("u".data, "abc".data)].map (fun p => (p.1, p.2.take 2000)) ∧
    (payload_candidates [("u".data, "abc".data)]).length ≤ 8 :=
  ⟨by decide,
    ((candidates_fallback_cap [("u".data, "abc".data)]).1 (by decide)).1,
    (candidates_fallback_cap [("u".data, "abc".data)]).2.1⟩
